import Mathlib

/-!
Shallow embedding of the go-proxy repository: the blocklist matcher, the
in-memory statistics accumulator with its periodic Redis flush
(`internal/proxy`), the Redis record store (`internal/storage/redis.go`),
the query engine and API handlers (`internal/api/handlers.go`), and the
geolocation cache (`internal/geo/geocache.go`).

Modelling conventions:
* Go strings are `List Char` (`Str`).
* `time.Time` values are seconds counted from the proleptic Gregorian era
  origin 0000-03-01 (Hinnant's civil-days algorithm).  This is the Go epoch
  shifted by a constant number of days, so every comparison (`Before`,
  `After`), every `Add` of a duration and every `Format`/`Parse` pair is
  preserved exactly; only the constant origin differs.
* Go `int64`/`uint64` counters are `Nat`.  The counters are only ever
  incremented by one or by a per-flush byte count, and wraparound at
  2^63/2^64 is unreachable in any modelled run, so the wrap is not modelled.
* External effects (Redis I/O, DNS resolution, the upstream geolocation
  HTTP call) are oracles passed in as explicit parameters, and writes are
  returned as explicit events.
-/

namespace GoProxy

/-- Go strings are modelled as lists of characters. -/
abbrev Str := List Char

/-- `strings.Split(s, sep)` for a one-character separator, as used on the
Redis keys (`strings.Split(key, ":")`, `strings.Split(parts[3], "-")`). -/
def splitSep (sep : Char) : Str → List Str
  | [] => [[]]
  | c :: rest =>
    match splitSep sep rest with
    | [] => [[]]
    | r :: rs => if c = sep then [] :: r :: rs else (c :: r) :: rs

/-- Whitespace recognised by the model of `strings.TrimSpace`.  (Go trims
all Unicode white space; the blocklist files only ever contain ASCII.) -/
def isSpaceChar (c : Char) : Bool :=
  c = ' ' || c = '\t' || c = '\n' || c = '\r'

/-- `strings.TrimSpace`. -/
def trimSpace (s : Str) : Str :=
  ((s.dropWhile isSpaceChar).reverse.dropWhile isSpaceChar).reverse

/-- The port-stripping idiom `if idx := strings.LastIndex(host, ":"); idx != -1
{ host = host[:idx] }` used by `HandleHTTP`, `updateStats` and
`RecordHostActivity`: everything after the last colon is dropped. -/
def stripPortLastColon (s : Str) : Str :=
  match s.reverse.dropWhile (fun c => !(c = ':')) with
  | [] => s
  | _ :: rest => rest.reverse

/-- Decimal digit list of a natural number, most significant first. -/
def natDigits (n : Nat) : Str :=
  Nat.toDigits 10 n

/-- Zero-padded decimal rendering to a minimum width, as produced by Go's
`time.Format` fields `2006`, `01`, `02` and `15`. -/
def padNum (width n : Nat) : Str :=
  let ds := natDigits n
  List.replicate (width - ds.length) '0' ++ ds

/-- Value of a list of decimal digits. -/
def digitsToNat (s : Str) : Nat :=
  s.foldl (fun acc c => 10 * acc + (c.toNat - '0'.toNat)) 0

/-- `strconv.Atoi`: optional sign, at least one digit, nothing else, and the
value must fit in an `int64`. -/
def goAtoi (s : Str) : Option Int :=
  let (neg, ds) :=
    match s with
    | '+' :: r => (false, r)
    | '-' :: r => (true, r)
    | r => (false, r)
  if ds = [] then none
  else if ds.all Char.isDigit then
    let n := digitsToNat ds
    if neg then
      if n ≤ 2 ^ 63 then some (-(n : Int)) else none
    else
      if n ≤ 2 ^ 63 - 1 then some (n : Int) else none
  else none

/-- All suffixes of a string, longest first. -/
def suffixesOf : Str → List Str
  | [] => [[]]
  | c :: s => (c :: s) :: suffixesOf s

/-- Redis `KEYS` glob matching restricted to the `*` wildcard, the only
metacharacter occurring in the patterns this program builds: a `*`
consumes an arbitrary prefix of the remaining string, other characters
match literally. -/
def globMatch : Str → Str → Bool
  | [], s => s.isEmpty
  | p :: ps, s =>
    if p = '*' then (suffixesOf s).any (globMatch ps)
    else
      match s with
      | [] => false
      | c :: s' => p = c && globMatch ps s'

/-- Leap year test of the Gregorian calendar. -/
def isLeapYear (y : Nat) : Bool :=
  (y % 4 = 0 && y % 100 ≠ 0) || y % 400 = 0

/-- Length of a month, as validated by Go's `time.Parse`. -/
def daysInMonth (y m : Nat) : Nat :=
  if m = 2 then (if isLeapYear y then 29 else 28)
  else if m = 4 || m = 6 || m = 9 || m = 11 then 30
  else 31

/-- Days of the civil date `(y, m, d)` counted from 0000-03-01
(Hinnant's `days_from_civil`, shifted so the count is a `Nat`). -/
def daysFromCivil (y m d : Nat) : Nat :=
  let y' := if m ≤ 2 then y - 1 else y
  let era := y' / 400
  let yoe := y' % 400
  let mp := if m > 2 then m - 3 else m + 9
  let doy := (153 * mp + 2) / 5 + d - 1
  let doe := yoe * 365 + yoe / 4 - yoe / 100 + doy
  era * 146097 + doe

/-- Civil date `(y, m, d)` of a day count (inverse of `daysFromCivil`). -/
def civilFromDays (z : Nat) : Nat × Nat × Nat :=
  let era := z / 146097
  let doe := z % 146097
  let yoe := (doe - doe / 1460 + doe / 36524 - doe / 146096) / 365
  let y' := yoe + era * 400
  let doy := doe - (365 * yoe + yoe / 4 - yoe / 100)
  let mp := (5 * doy + 2) / 153
  let d := doy - (153 * mp + 2) / 5 + 1
  let m := if mp < 10 then mp + 3 else mp - 9
  (if m ≤ 2 then y' + 1 else y', m, d)

/-- Go `time.Parse("2006-01-02", s)`: exactly `YYYY-MM-DD` with a valid
month and day.  Returns the day count of the parsed date. -/
def parseDateStr (s : Str) : Option Nat :=
  match splitSep '-' s with
  | [ys, ms, ds] =>
    if ys.length = 4 && ms.length = 2 && ds.length = 2 &&
        ys.all Char.isDigit && ms.all Char.isDigit && ds.all Char.isDigit then
      let y := digitsToNat ys
      let m := digitsToNat ms
      let d := digitsToNat ds
      if 1 ≤ m && m ≤ 12 && 1 ≤ d && d ≤ daysInMonth y m then
        some (daysFromCivil y m d)
      else none
    else none
  | _ => none

/-- Go `time.Format("2006-01-02")` of a day count. -/
def formatDay (days : Nat) : Str :=
  let (y, m, d) := civilFromDays days
  padNum 4 y ++ '-' :: padNum 2 m ++ '-' :: padNum 2 d

/-- Go `time.Format("2006-01-02")` of a time in seconds. -/
def formatDayStamp (now : Nat) : Str :=
  formatDay (now / 86400)

/-- Go `time.Format("2006-01-02-15")` of a time in seconds. -/
def formatHourStamp (now : Nat) : Str :=
  formatDay (now / 86400) ++ '-' :: padNum 2 (now % 86400 / 3600)

/-- Insert or replace a binding in an association list (the model of a map
assignment `m[k] = v` and of a Redis `SET`).  New keys are appended, so the
enumeration order of existing keys is stable. -/
def setAssoc {α : Type} (m : List (Str × α)) (k : Str) (v : α) : List (Str × α) :=
  if (List.lookup k m).isSome then
    m.map (fun p => if p.1 = k then (k, v) else p)
  else m ++ [(k, v)]

/-- `stats.HostStats` (internal/stats/types.go).  `last_seen` is a time in
seconds; see the module comment for the integer conventions. -/
structure HostStats where
  host : Str
  ips : Str
  connections : Nat
  requestCount : Nat
  blockedAttempts : Nat
  bytesTransferred : Nat
  blocked : Bool
  lastSeen : Nat
deriving DecidableEq

/-- Result of `rdb.Get` followed by `json.Unmarshal`: the record, a
`redis.Nil` miss, a transport error, or a decode failure. -/
inductive GetResult where
  | found (r : HostStats)
  | missing
  | ioError
  | corrupt
deriving DecidableEq

/-- The Redis database as seen through `internal/storage/redis.go`: the
stored records plus oracles saying which operations fail.  `getFails`,
`decodeFails` and `setFails` model transport errors on `GET`, corrupt
stored JSON, and transport errors on `SET`; `keysFail` models a failing
`KEYS` scan. -/
structure RedisState where
  data : List (Str × HostStats)
  getFails : Str → Bool
  decodeFails : Str → Bool
  setFails : Str → Bool
  keysFail : Bool

/-- `rdb.Get(ctx, key)` plus `json.Unmarshal`. -/
def RedisState.get (st : RedisState) (key : Str) : GetResult :=
  if st.getFails key then .ioError
  else
    match List.lookup key st.data with
    | none => .missing
    | some r => if st.decodeFails key then .corrupt else .found r

/-- A successful `rdb.Set(ctx, key, data, expiration)`. -/
def RedisState.set (st : RedisState) (key : Str) (r : HostStats) : RedisState :=
  { st with data := setAssoc st.data key r }

/-- One `SET` of a host-stats record, with its TTL in seconds. -/
structure WriteEvent where
  key : Str
  record : HostStats
  ttlSeconds : Nat
deriving DecidableEq

/-- TTL of HOUR buckets: 15 days. -/
def ttlHour : Nat := 15 * 24 * 3600

/-- TTL of DAY buckets: 90 days. -/
def ttlDay : Nat := 90 * 24 * 3600

/-- The HOUR bucket key `HOST:<host>:HOUR:<YYYY-MM-DD-HH>`. -/
def hourKeyOf (host : Str) (now : Nat) : Str :=
  "HOST:".toList ++ host ++ ":HOUR:".toList ++ formatHourStamp now

/-- The DAY bucket key `HOST:<host>:DAY:<YYYY-MM-DD>`. -/
def dayKeyOf (host : Str) (now : Nat) : Str :=
  "HOST:".toList ++ host ++ ":DAY:".toList ++ formatDayStamp now

/-- The record `updateHostStats` builds for a key that was not yet stored
(`err == redis.Nil`): resolve the IPs (`"unknown"` on failure) and start
the counters at one connection and one request. -/
def freshHostStats (resolveIPs : Str → Option Str) (host : Str)
    (blocked : Bool) (bytes now : Nat) : HostStats :=
  { host := host, ips := (resolveIPs host).getD "unknown".toList,
    connections := 1, requestCount := 1, blockedAttempts := 0,
    bytesTransferred := bytes, blocked := blocked, lastSeen := now }

/-- The record `updateHostStats` builds from a previously stored record:
`Connections++`, `RequestCount++`, `BytesTransferred += bytes`,
`LastSeen = now`, and when blocked also `BlockedAttempts++` and the sticky
`Blocked` flag. -/
def mergeHostStats (old : HostStats) (blocked : Bool) (bytes now : Nat) : HostStats :=
  { old with
    connections := old.connections + 1,
    requestCount := old.requestCount + 1,
    bytesTransferred := old.bytesTransferred + bytes,
    blockedAttempts := old.blockedAttempts + (if blocked then 1 else 0),
    blocked := old.blocked || blocked,
    lastSeen := now }

/-- `updateHostStats` (internal/storage/redis.go).  `resolveIPs` is the
`net.LookupHost` oracle (`none` models a failed or empty resolution).
Returns the new store state and the write performed, or `none` when the
`GET` failed, the stored JSON did not decode, or the `SET` failed. -/
def updateHostStats (resolveIPs : Str → Option Str) (now : Nat)
    (st : RedisState) (key host : Str) (blocked : Bool) (bytes : Nat)
    (ttl : Nat) : Option (RedisState × WriteEvent) :=
  match st.get key with
  | .ioError => none
  | .corrupt => none
  | .missing =>
    let r := freshHostStats resolveIPs host blocked bytes now
    if st.setFails key then none else some (st.set key r, ⟨key, r, ttl⟩)
  | .found old =>
    let r := mergeHostStats old blocked bytes now
    if st.setFails key then none else some (st.set key r, ⟨key, r, ttl⟩)

/-- `RecordHostActivity` (internal/storage/redis.go): strip the port, then
read-modify-write the HOUR key (TTL 15 d) and then the DAY key (TTL 90 d),
stopping at the first failure.  Returns the store state, the writes that
happened, and whether the whole call succeeded. -/
def RecordHostActivity (resolveIPs : Str → Option Str) (now : Nat)
    (st : RedisState) (host : Str) (blocked : Bool) (bytes : Nat) :
    RedisState × List WriteEvent × Bool :=
  if host = [] then (st, [], false)
  else
    let h := stripPortLastColon host
    match updateHostStats resolveIPs now st (hourKeyOf h now) h blocked bytes ttlHour with
    | none => (st, [], false)
    | some (st1, w1) =>
      match updateHostStats resolveIPs now st1 (dayKeyOf h now) h blocked bytes ttlDay with
      | none => (st1, [w1], false)
      | some (st2, w2) => (st2, [w1, w2], true)

/-- What the flush did to one accumulator entry. -/
inductive FlushOutcome where
  | skipped
  | persisted
  | failed
deriving DecidableEq

/-- Record of one accumulator entry's fate during a flush cycle. -/
structure FlushResult where
  host : Str
  before : HostStats
  after : HostStats
  writes : List WriteEvent
  outcome : FlushOutcome
deriving DecidableEq

/-- The body of `saveStatsToRedis` for one entry of `s.stats.HostStats`:
entries with `Connections > 0 || BlockedAttempts > 0` get `LastSeen = now`,
are persisted through `RecordHostActivity`, and have their three delta
counters zeroed only when that call returned no error; other entries are
untouched. -/
def flushEntry (resolveIPs : Str → Option Str) (now : Nat) (st : RedisState)
    (host : Str) (s : HostStats) : FlushResult × RedisState :=
  if s.connections > 0 || s.blockedAttempts > 0 then
    let s1 := { s with lastSeen := now }
    let (st', ws, ok) := RecordHostActivity resolveIPs now st host s1.blocked s1.bytesTransferred
    if ok then
      (⟨host, s, { s1 with connections := 0, blockedAttempts := 0, bytesTransferred := 0 },
        ws, .persisted⟩, st')
    else
      (⟨host, s, s1, ws, .failed⟩, st')
  else
    (⟨host, s, s, [], .skipped⟩, st)

/-- `saveStatsToRedis` (internal/proxy/proxy.go): flush every accumulator
entry in order, threading the store state.  Returns the per-entry results
(the new accumulator is their `(host, after)` projection) and the final
store state. -/
def saveStatsToRedis (resolveIPs : Str → Option Str) (now : Nat)
    (st : RedisState) : List (Str × HostStats) → List FlushResult × RedisState
  | [] => ([], st)
  | (host, s) :: rest =>
    ((flushEntry resolveIPs now st host s).1 ::
        (saveStatsToRedis resolveIPs now (flushEntry resolveIPs now st host s).2 rest).1,
      (saveStatsToRedis resolveIPs now (flushEntry resolveIPs now st host s).2 rest).2)

/-! ### Blocklist matcher (internal/proxy/proxy.go)

The blocklist lines are compiled with Go's `regexp.Compile` and evaluated
with `MatchString` (unanchored search).  The model implements the fragment
of Go regexp syntax the blocklist scenarios use — literal characters,
backslash-escaped punctuation, `.`, a leading `^` anchor and a trailing `$`
anchor — and rejects every other metacharacter, so a pattern the model
compiles matches exactly as Go does. -/

/-- One compiled regex token: a literal character or `.`. -/
inductive RTok where
  | lit (c : Char)
  | anyChar
deriving DecidableEq

/-- A compiled pattern: optional `^` anchor, token sequence, optional `$`. -/
structure CompiledRegex where
  anchorStart : Bool
  toks : List RTok
  anchorEnd : Bool
deriving DecidableEq

/-- Characters the modelled regex fragment refuses to compile (the left
and right curly braces are written via their code points). -/
def regexMeta (c : Char) : Bool :=
  c = '*' || c = '+' || c = '?' || c = '(' || c = ')' || c = '[' ||
  c = ']' || c = '|' || c = '^' || c = '$' ||
  c = Char.ofNat 0x7b || c = Char.ofNat 0x7d

/-- Token-list compilation: a final `$` is the end anchor, `\c` escapes one
punctuation character, `.` matches any character. -/
def compileToks : Str → Option (List RTok × Bool)
  | [] => some ([], false)
  | ['$'] => some ([], true)
  | '\\' :: [] => none
  | '\\' :: c :: rest =>
    if c.isAlphanum then none
    else (compileToks rest).map (fun (ts, ae) => (.lit c :: ts, ae))
  | '.' :: rest => (compileToks rest).map (fun (ts, ae) => (.anyChar :: ts, ae))
  | c :: rest =>
    if regexMeta c then none
    else (compileToks rest).map (fun (ts, ae) => (.lit c :: ts, ae))

/-- `regexp.Compile`, restricted to the supported fragment. -/
def goRegexCompile (p : Str) : Option CompiledRegex :=
  match p with
  | '^' :: rest => (compileToks rest).map (fun (ts, ae) => ⟨true, ts, ae⟩)
  | _ => (compileToks p).map (fun (ts, ae) => ⟨false, ts, ae⟩)

/-- Does a token match a character? -/
def tokMatches : RTok → Char → Bool
  | .lit c, x => c = x
  | .anyChar, _ => true

/-- Consume the token list from the front of `s`, returning the remainder. -/
def toksEat : List RTok → Str → Option Str
  | [], s => some s
  | _ :: _, [] => none
  | t :: ts, c :: s => if tokMatches t c then toksEat ts s else none

/-- Match the token list at one start position (respecting a `$` anchor). -/
def matchAt (toks : List RTok) (anchorEnd : Bool) (s : Str) : Bool :=
  match toksEat toks s with
  | none => false
  | some rem => !anchorEnd || rem.isEmpty

/-- `Regexp.MatchString`: unanchored search unless the pattern began with
`^`. -/
def regexMatchString (r : CompiledRegex) (s : Str) : Bool :=
  if r.anchorStart then matchAt r.toks r.anchorEnd s
  else (suffixesOf s).any (matchAt r.toks r.anchorEnd)

/-- The loop body of `loadBlacklist` for one line: trim it, ignore empty
lines and lines starting with `#`, and skip lines that do not compile. -/
def blacklistStep (regs : List CompiledRegex) (line : Str) : List CompiledRegex :=
  let pat := trimSpace line
  if pat = [] || pat.headD ' ' = '#' then regs
  else
    match goRegexCompile pat with
    | none => regs
    | some r => regs ++ [r]

/-- `loadBlacklist` (internal/proxy/proxy.go): fold `blacklistStep` over
the lines of the blocklist file; compile failures never fail the load. -/
def loadBlacklist (lines : List Str) : List CompiledRegex :=
  lines.foldl blacklistStep []

/-- `isBlocked` (internal/proxy/proxy.go): false with no patterns, else
true iff some compiled pattern matches the host. -/
def isBlocked (regs : List CompiledRegex) (host : Str) : Bool :=
  if regs.length = 0 then false
  else regs.any (fun r => regexMatchString r host)

/-! ### In-memory accumulator and the HTTP forwarder
(internal/proxy/proxy.go) -/

/-- `updateStats` (internal/proxy/proxy.go): strip the port; find or create
the entry (resolving IPs only on creation, `"unknown"` on failure); then
increment `Connections` when asked, add the bytes, and when blocked set the
sticky flag and count a blocked attempt only if `incrementConnections`.
`LastSeen` is only set at creation.  (The `geo.RecordHostLocation` side
call is modelled separately; it does not touch the accumulator.) -/
def updateStats (resolveIPs : Str → Option Str) (now : Nat)
    (acc : List (Str × HostStats)) (host0 : Str) (blocked : Bool)
    (bytes : Nat) (incrementConnections : Bool) : List (Str × HostStats) :=
  let host := stripPortLastColon host0
  let hs0 :=
    match List.lookup host acc with
    | some hs => hs
    | none =>
      { host := host, ips := (resolveIPs host).getD "unknown".toList,
        connections := 0, requestCount := 0, blockedAttempts := 0,
        bytesTransferred := 0, blocked := false, lastSeen := now }
  let hs1 := if incrementConnections then { hs0 with connections := hs0.connections + 1 } else hs0
  let hs2 := { hs1 with bytesTransferred := hs1.bytesTransferred + bytes }
  let hs3 :=
    if blocked then
      { (if incrementConnections then { hs2 with blockedAttempts := hs2.blockedAttempts + 1 } else hs2)
        with blocked := true }
    else hs2
  setAssoc acc host hs3

/-- Outcome of the upstream request issued by `HandleHTTP`: the
`client.Do` error case, or a response whose body copy transfers `bytes`
bytes and either completes or fails midway. -/
inductive Upstream where
  | unreachable
  | resp (status : Nat) (bytes : Nat) (copyFails : Bool)
deriving DecidableEq

/-- What `HandleHTTP` sent back to the client. -/
inductive HttpOutcome where
  | blockedResp
  | badGateway
  | copyError (status : Nat)
  | okResp (status : Nat) (written : Nat)
deriving DecidableEq

/-- `HandleHTTP` (internal/proxy/proxy.go): pick `r.Host` (else the URL
host), strip the port, and either reject a blocked host with
`403 "Blocked"` (recording `(host, blocked=true, 0, incr=false)`), or
forward and on a complete copy record
`(host, blocked=false, written, incr=true)`.  A mid-copy error returns
without recording. -/
def HandleHTTP (regs : List CompiledRegex) (resolveIPs : Str → Option Str)
    (now : Nat) (acc : List (Str × HostStats)) (rHost urlHost : Str)
    (upstream : Upstream) : HttpOutcome × List (Str × HostStats) :=
  let host0 := if rHost ≠ [] then rHost else urlHost
  let host := stripPortLastColon host0
  if isBlocked regs host then
    (.blockedResp, updateStats resolveIPs now acc host true 0 false)
  else
    match upstream with
    | .unreachable => (.badGateway, acc)
    | .resp status bytes copyFails =>
      if copyFails then (.copyError status, acc)
      else (.okResp status bytes, updateStats resolveIPs now acc host false bytes true)

/-! ### Query engine and API handlers
(internal/storage/redis.go, internal/api/handlers.go) -/

/-- The hour component of a well-formed HOUR key, per `GetHourlyStats`:
split on `:` into exactly 4 parts, split the stamp on `-` into exactly 4
parts, and `strconv.Atoi` the last. -/
def hourOfHourKey (k : Str) : Option Int :=
  let parts := splitSep ':' k
  if parts.length = 4 then
    let dh := splitSep '-' (parts.getD 3 [])
    if dh.length = 4 then goAtoi (dh.getD 3 []) else none
  else none

/-- The per-key retention test of `GetHourlyStats`: the key must be
well-formed, its hour must lie in `[fromHour, toHour]`, and its record
must load and decode. -/
def hourKeyKeep (st : RedisState) (fromHour toHour : Int) (k : Str) : Bool :=
  match hourOfHourKey k with
  | none => false
  | some h =>
    decide (fromHour ≤ h) && decide (h ≤ toHour) &&
      (match st.get k with | .found _ => true | _ => false)

/-- Load the record of a kept key. -/
def loadKeyRecord (st : RedisState) (k : Str) : Option (Str × HostStats) :=
  match st.get k with | .found r => some (k, r) | _ => none

/-- `GetHourlyStats` (internal/storage/redis.go): scan
`HOST:*:HOUR:<date>-*`, keep keys per `hourKeyKeep`, and return the kept
keys with their records.  `none` models a failed `KEYS` scan. -/
def GetHourlyStats (st : RedisState) (dateStr : Str) (fromHour toHour : Int) :
    Option (List Str × List (Str × HostStats)) :=
  if st.keysFail then none
  else
    let keys := (st.data.map Prod.fst).filter
      (fun k => globMatch ("HOST:*:HOUR:".toList ++ dateStr ++ "-*".toList) k)
    let kept := keys.filter (hourKeyKeep st fromHour toHour)
    some (kept, kept.filterMap (loadKeyRecord st))

/-- The date of a key stamp, per `GetDailyStats`: for HOUR granularity the
stamp must split on `-` into 4 parts and its first three rejoin to a date;
for DAY granularity the stamp itself is parsed. -/
def dateOfKeyStamp (granHour : Bool) (stamp : Str) : Option Nat :=
  if granHour then
    let hp := splitSep '-' stamp
    if hp.length = 4 then
      parseDateStr (hp.getD 0 [] ++ '-' :: hp.getD 1 [] ++ '-' :: hp.getD 2 [])
    else none
  else parseDateStr stamp

/-- The date (in days) of a whole key, per `GetDailyStats`: exactly 4
colon-separated parts, then `dateOfKeyStamp` on the stamp. -/
def dateOfKey (granHour : Bool) (k : Str) : Option Nat :=
  let parts := splitSep ':' k
  if parts.length = 4 then dateOfKeyStamp granHour (parts.getD 3 []) else none

/-- The per-key retention test of `GetDailyStats`: the key must be
well-formed, its date (in seconds) must satisfy
`!keyDate.Before(fromSec) && !keyDate.After(toSec)`, and its record must
load and decode. -/
def dayKeyKeep (st : RedisState) (fromSec toSec : Nat) (granHour : Bool)
    (k : Str) : Bool :=
  match dateOfKey granHour k with
  | none => false
  | some d =>
    !decide (86400 * d < fromSec) && !decide (86400 * d > toSec) &&
      (match st.get k with | .found _ => true | _ => false)

/-- `GetDailyStats` (internal/storage/redis.go): choose the keyspace from
the granularity (default `day`), interpolate the host filter into the scan
pattern, and keep keys per `dayKeyKeep`. -/
def GetDailyStats (st : RedisState) (fromSec toSec : Nat) (hostFilter : Str)
    (granularity : Str) : Option (List Str × List (Str × HostStats)) :=
  let gran := if granularity = [] then "day".toList else granularity
  let granHour := gran = "hour".toList
  let pattern :=
    "HOST:*".toList ++
      (if hostFilter = [] then [] else hostFilter ++ "*".toList) ++
      (if granHour then ":HOUR:*".toList else ":DAY:*".toList)
  if st.keysFail then none
  else
    let keys := (st.data.map Prod.fst).filter (fun k => globMatch pattern k)
    let kept := keys.filter (dayKeyKeep st fromSec toSec granHour)
    some (kept, kept.filterMap (loadKeyRecord st))

/-- An API handler's response, after JSON encoding: HTTP 400 with an error
message, HTTP 500, or HTTP 200 with keys and records. -/
inductive ApiResult where
  | badRequest (msg : Str)
  | serverError
  | ok (keys : List Str) (records : List (Str × HostStats))
deriving DecidableEq

/-- Is the response an HTTP 400? -/
def ApiResult.isBadRequest : ApiResult → Bool
  | .badRequest _ => true
  | _ => false

/-- `HandleDailyStats` (internal/api/handlers.go): require and parse both
dates, default then validate the granularity, add one day to `toDate`
(`toDate = toDate.Add(24 * time.Hour)`), and delegate to `GetDailyStats`. -/
def HandleDailyStats (st : RedisState) (fromStr toStr hostFilter granParam : Str) :
    ApiResult :=
  if fromStr = [] || toStr = [] then
    .badRequest "Missing from_date or to_date parameters".toList
  else
    match parseDateStr fromStr with
    | none => .badRequest "Invalid from_date format. Use YYYY-MM-DD".toList
    | some f =>
      match parseDateStr toStr with
      | none => .badRequest "Invalid to_date format. Use YYYY-MM-DD".toList
      | some t =>
        let gran := if granParam = [] then "day".toList else granParam
        if gran ≠ "day".toList ∧ gran ≠ "hour".toList then
          .badRequest "Invalid granularity. Use 'day' or 'hour'".toList
        else
          match GetDailyStats st (86400 * f) (86400 * t + 86400) hostFilter gran with
          | none => .serverError
          | some (ks, rs) => .ok ks rs

/-- `HandleHourlyStats` (internal/api/handlers.go): parse the date, reject
hours outside `0..23` (reversed ranges are not checked), and delegate to
`GetHourlyStats` on the formatted date. -/
def HandleHourlyStats (st : RedisState) (dateStr : Str) (fromHour toHour : Int) :
    ApiResult :=
  match parseDateStr dateStr with
  | none => .badRequest "Invalid date format. Use YYYY-MM-DD".toList
  | some d =>
    if fromHour < 0 ∨ fromHour > 23 ∨ toHour < 0 ∨ toHour > 23 then
      .badRequest "Hours must be between 0 and 23".toList
    else
      match GetHourlyStats st (formatDay d) fromHour toHour with
      | none => .serverError
      | some (ks, rs) => .ok ks rs

/-! ### Geolocation cache (internal/geo/geocache.go)

`GeoData` payloads are carried opaquely: the cache never branches on the
record fields, so the float coordinates are irrelevant to the claims and
are not modelled. -/

/-- `geo.GeoData`, with the payload reduced to the string fields the
claims can observe. -/
structure GeoData where
  countryCode : Str
  countryName : Str
  city : Str
  region : Str
  timeZone : Str
deriving DecidableEq

/-- Result of the Redis tier (`getFromRedis`): a record, a `redis.Nil`
miss, or a transport/decode error (both are logged and fall through). -/
inductive GeoGet where
  | found (g : GeoData)
  | missing
  | ioError
deriving DecidableEq

/-- Everything one `Lookup` call did: its return value, the LRU afterwards,
whether the Redis tier was consulted, whether the upstream API was called,
and the asynchronous `SETEX` writes it scheduled as `(key, ttl, record)`. -/
structure LookupTrace where
  result : Option GeoData
  lruAfter : List (Str × GeoData)
  storeRead : Bool
  upstreamCalled : Bool
  storeWrites : List (Str × Nat × GeoData)
deriving DecidableEq

/-- `Lookup` (internal/geo/geocache.go): LRU hit returns immediately; a
Redis hit populates the LRU and returns; otherwise (miss or Redis error)
the upstream API is called, and on success the LRU is populated
synchronously and a `SETEX geo:<host> 604800` is scheduled.  The LRU is
modelled as an association list: capacity eviction cannot remove the entry
just added and is not observable by the claims. -/
def Lookup (lru : List (Str × GeoData)) (store : Str → GeoGet)
    (upstream : Str → Option GeoData) (host : Str) : LookupTrace :=
  match List.lookup host lru with
  | some d => ⟨some d, lru, false, false, []⟩
  | none =>
    match store host with
    | .found d => ⟨some d, setAssoc lru host d, true, false, []⟩
    | _ =>
      match upstream host with
      | none => ⟨none, lru, true, true, []⟩
      | some g =>
        ⟨some g, setAssoc lru host g, true, true,
          [("geo:".toList ++ host, 86400 * 7, g)]⟩

/-- What `RecordHostLocation` decided to do. -/
inductive GeoAction where
  | skip
  | dispatchLookup (host : Str)
deriving DecidableEq

/-- An IP address as returned by Go's `net.ParseIP`, normalised through
`IP.To4` the way `IPNet.Contains` does: 4-byte addresses (including
IPv4-mapped IPv6) as a 32-bit value, all others as a 128-bit value. -/
inductive IPAddr where
  | v4 (n : Nat)
  | v6 (n : Nat)
deriving DecidableEq

/-- One CIDR block from `privateIPBlocks`, pre-parsed: address family,
network address value, and mask length. -/
structure CidrBlock where
  isV4 : Bool
  base : Nat
  maskBits : Nat
deriving DecidableEq

/-- `net.IPNet.Contains`: the families must agree and the first `maskBits`
bits must agree. -/
def cidrContains (b : CidrBlock) (ip : IPAddr) : Bool :=
  match ip with
  | .v4 n => b.isV4 && decide (n / 2 ^ (32 - b.maskBits) = b.base / 2 ^ (32 - b.maskBits))
  | .v6 n => !b.isV4 && decide (n / 2 ^ (128 - b.maskBits) = b.base / 2 ^ (128 - b.maskBits))

/-- The eight blocks of `isPrivateIP`, as parsed by `net.ParseCIDR`:
127.0.0.0/8, 10.0.0.0/8, 172.16.0.0/12, 192.168.0.0/16, 169.254.0.0/16,
::1/128, fc00::/7, fe80::/10. -/
def privateIPBlocks : List CidrBlock :=
  [⟨true, 127 * 2 ^ 24, 8⟩,
   ⟨true, 10 * 2 ^ 24, 8⟩,
   ⟨true, 172 * 2 ^ 24 + 16 * 2 ^ 16, 12⟩,
   ⟨true, 192 * 2 ^ 24 + 168 * 2 ^ 16, 16⟩,
   ⟨true, 169 * 2 ^ 24 + 254 * 2 ^ 16, 16⟩,
   ⟨false, 1, 128⟩,
   ⟨false, 0xfc00 * 2 ^ 112, 7⟩,
   ⟨false, 0xfe80 * 2 ^ 112, 10⟩]

/-- `isPrivateIP` (internal/geo/geocache.go): strings that do not parse as
an IP are not private; parsed IPs are checked against the eight blocks.
`parseIP` is the `net.ParseIP` oracle. -/
def isPrivateIP (parseIP : Str → Option IPAddr) (s : Str) : Bool :=
  match parseIP s with
  | none => false
  | some ip => privateIPBlocks.any (fun b => cidrContains b ip)

/-- `RecordHostLocation` (internal/geo/geocache.go), with the geo cache
initialised: strip the port when `net.SplitHostPort` succeeds
(`splitHostPort` oracle, `none` = error), do nothing for private IPs, else
dispatch an asynchronous `Lookup`. -/
def RecordHostLocation (parseIP : Str → Option IPAddr)
    (splitHostPort : Str → Option Str) (host : Str) : GeoAction :=
  let h := (splitHostPort host).getD host
  if isPrivateIP parseIP h then .skip
  else .dispatchLookup h

/-! ### Claim-side characterisation and concrete scenario inputs -/

/-- The spec's notion of a well-formed HOUR key of a given date with a
given hour component: `HOST:<host>:HOUR:<date>-<hh>` where the host
segment has no nested colon, the hour segment is colon- and dash-free, and
the hour segment parses as the hour value.  Stated independently of the
query engine so that `GetHourlyStats` can be compared against it. -/
def hourKeyWellFormed (date : Str) (hour : Int) (k : Str) : Prop :=
  ∃ h hh, ':' ∉ h ∧ ':' ∉ hh ∧ '-' ∉ hh ∧
    k = "HOST:".toList ++ h ++ ":HOUR:".toList ++ date ++ '-' :: hh ∧
    goAtoi hh = some hour

/-- A DNS oracle that always fails (`net.LookupHost` returning an error). -/
def noResolve : Str → Option Str := fun _ => none

/-- A Redis store with the given records and no failing operations. -/
def storeWith (data : List (Str × HostStats)) : RedisState :=
  ⟨data, fun _ => false, fun _ => false, fun _ => false, false⟩

/-- An empty, healthy Redis store. -/
def cleanStore : RedisState := storeWith []

/-- 2024-03-22 15:00:00 as model seconds. -/
def tNoon : Nat := 86400 * daysFromCivil 2024 3 22 + 3600 * 15

/-- The scenario blocklist line `^ads\.example\.com$`. -/
def adsPattern : Str := "^ads\\.example\\.com$".toList

/-- The compiled scenario blocklist. -/
def adsRegs : List CompiledRegex := loadBlacklist [adsPattern]

/-- A sample persisted record used by the query scenarios. -/
def sampleRec : HostStats :=
  ⟨"example.com".toList, "unknown".toList, 1, 1, 0, 5, false, 0⟩

/-- An accumulator entry with only transferred bytes (as produced by the
tunnel copy path: `updateStats(host, false, n, false)`). -/
def bytesOnlyEntry : HostStats :=
  ⟨"example.com".toList, "unknown".toList, 0, 0, 0, 5, false, 0⟩

/-- A previously stored bucket record with `connections = 5`. -/
def storedHour : HostStats :=
  ⟨"example.com".toList, "1.2.3.4".toList, 5, 7, 2, 100, false, 50⟩

/-- An accumulator entry with a connections delta of 3 and 10 bytes. -/
def accDelta : HostStats :=
  ⟨"example.com".toList, "unknown".toList, 3, 0, 0, 10, false, 0⟩

/-- A store already holding the HOUR and DAY buckets of `example.com` at
`tNoon`. -/
def preloadedStore : RedisState :=
  storeWith
    [(hourKeyOf "example.com".toList tNoon, storedHour),
     (dayKeyOf "example.com".toList tNoon, storedHour)]

/-- The scenario HOUR key at hour 09. -/
def k09 : Str := "HOST:example.com:HOUR:2024-03-22-09".toList

/-- The scenario HOUR key at hour 17. -/
def k17 : Str := "HOST:example.com:HOUR:2024-03-22-17".toList

/-- HOUR keys for `example.com` at hours 09 and 17 of 2024-03-22 only. -/
def hourScenarioStore : RedisState :=
  storeWith [(k09, sampleRec), (k17, sampleRec)]

/-- A store holding one DAY key dated one day past the query's `to_date`. -/
def dayBoundaryStore : RedisState :=
  storeWith [("HOST:a.com:DAY:2024-03-22".toList, sampleRec)]

/-- A sample bucket key used by witnesses. -/
def kSample : Str := "HOST:example.com:HOUR:2024-03-22-15".toList

/-! ## Association list lemmas -/

theorem lookup_replace_self {α : Type} (m : List (Str × α)) (k : Str) (v : α) :
    List.lookup k (m.map fun p => if p.1 = k then (k, v) else p) =
      if (List.lookup k m).isSome then some v else none := by
  induction m with
  | nil => rfl
  | cons p rest ih =>
    obtain ⟨a, b⟩ := p
    by_cases hak : a = k
    · subst hak
      rw [List.map_cons, if_pos rfl]
      have h1 : List.lookup a ((a, v) :: List.map (fun p => if p.1 = a then (a, v) else p) rest)
          = some v := by
        simp only [List.lookup, beq_self_eq_true]
      have h2 : List.lookup a ((a, b) :: rest) = some b := by
        simp only [List.lookup, beq_self_eq_true]
      rw [h1, h2]
      rfl
    · have hne : (k == a) = false := beq_eq_false_iff_ne.mpr (fun h => hak h.symm)
      rw [List.map_cons, if_neg hak]
      show List.lookup k ((a, b) :: List.map _ rest) = _
      simp only [List.lookup, hne]
      exact ih

theorem lookup_append_of_none {α : Type} (k : Str) (m l : List (Str × α))
    (h : List.lookup k m = none) : List.lookup k (m ++ l) = List.lookup k l := by
  induction m with
  | nil => rfl
  | cons p rest ih =>
    obtain ⟨a, b⟩ := p
    rw [List.cons_append]
    cases hak : (k == a) with
    | true =>
      simp only [List.lookup, hak] at h
      exact Option.noConfusion h
    | false =>
      simp only [List.lookup, hak] at h ⊢
      exact ih h

theorem lookup_setAssoc {α : Type} (m : List (Str × α)) (k : Str) (v : α) :
    List.lookup k (setAssoc m k v) = some v := by
  unfold setAssoc
  cases hl : List.lookup k m with
  | some b =>
    rw [if_pos (show (some b).isSome = true from rfl)]
    rw [lookup_replace_self, hl]
    rfl
  | none =>
    rw [if_neg (show ¬(none : Option α).isSome = true by simp)]
    rw [lookup_append_of_none k m _ hl]
    simp only [List.lookup, beq_self_eq_true]

theorem lookup_isSome_of_mem_fst {α : Type} (m : List (Str × α)) (k : Str)
    (h : k ∈ m.map Prod.fst) : (List.lookup k m).isSome := by
  induction m with
  | nil => simp at h
  | cons p rest ih =>
    obtain ⟨a, b⟩ := p
    rw [List.map_cons] at h
    rcases List.mem_cons.mp h with h1 | h2
    · have : k = a := h1
      subst this
      simp only [List.lookup, beq_self_eq_true]
      rfl
    · cases hak : (k == a) with
      | true => simp only [List.lookup, hak]; rfl
      | false => simp only [List.lookup, hak]; exact ih h2

/-! ## C2: the read-modify-write merge of a stored bucket record -/

/-- C2 counterexample: flushing an accumulator entry with a connections
delta of 3 into a stored HOUR record with `connections = 5` stores
`connections = 6`, not `5 + 3`: the merge increments `connections` by one
per flush instead of summing stored + delta (the delta is never passed to
the store layer). -/
theorem flush_merge_not_delta_sum :
    accDelta.connections = 3 ∧ storedHour.connections = 5 ∧
    (List.lookup (hourKeyOf "example.com".toList tNoon)
        (saveStatsToRedis noResolve tNoon preloadedStore
          [("example.com".toList, accDelta)]).2.data).map
      HostStats.connections = some 6 ∧
    (6 : Nat) ≠ 5 + 3 := by
  decide

/-- C2 (amended): persisting into an already-existing HOUR or DAY record
updates the stored record by incrementing `connections` and
`request_count` by exactly one, adding the delta `bytes_transferred`,
incrementing `blocked_attempts` by one iff the flushed entry was blocked,
OR-ing `blocked`, overwriting `last_seen`, and preserving the stored `ips`
(and `host`). -/
theorem updateHostStats_merge_existing :
    ∀ (resolveIPs : Str → Option Str) (now : Nat) (st : RedisState)
      (key host : Str) (blocked : Bool) (bytes ttl : Nat) (old : HostStats),
    st.get key = .found old → st.setFails key = false →
    ∃ st' w, updateHostStats resolveIPs now st key host blocked bytes ttl = some (st', w) ∧
      List.lookup key st'.data = some w.record ∧
      w.record.connections = old.connections + 1 ∧
      w.record.requestCount = old.requestCount + 1 ∧
      w.record.bytesTransferred = old.bytesTransferred + bytes ∧
      w.record.blockedAttempts = old.blockedAttempts + (if blocked then 1 else 0) ∧
      w.record.blocked = (old.blocked || blocked) ∧
      w.record.lastSeen = now ∧
      w.record.ips = old.ips ∧
      w.record.host = old.host ∧
      w.key = key ∧ w.ttlSeconds = ttl := by
  intro resolveIPs now st key host blocked bytes ttl old hget hset
  refine ⟨st.set key (mergeHostStats old blocked bytes now),
    ⟨key, mergeHostStats old blocked bytes now, ttl⟩,
    ?_, ?_, rfl, rfl, rfl, rfl, rfl, rfl, rfl, rfl, rfl, rfl⟩
  · unfold updateHostStats
    rw [hget, hset]
    simp
  · exact lookup_setAssoc st.data key _

/-- C2 witness: the merge theorem applied to a store holding
`storedHour` under `kSample`. -/
theorem updateHostStats_merge_existing_witness :
    ∃ st' w, updateHostStats noResolve 9 (storeWith [(kSample, storedHour)])
        kSample "example.com".toList true 4 ttlHour = some (st', w) ∧
      List.lookup kSample st'.data = some w.record ∧
      w.record.connections = storedHour.connections + 1 ∧
      w.record.requestCount = storedHour.requestCount + 1 ∧
      w.record.bytesTransferred = storedHour.bytesTransferred + 4 ∧
      w.record.blockedAttempts = storedHour.blockedAttempts + (if true then 1 else 0) ∧
      w.record.blocked = (storedHour.blocked || true) ∧
      w.record.lastSeen = 9 ∧
      w.record.ips = storedHour.ips ∧
      w.record.host = storedHour.host ∧
      w.key = kSample ∧ w.ttlSeconds = ttlHour :=
  updateHostStats_merge_existing noResolve 9 (storeWith [(kSample, storedHour)])
    kSample "example.com".toList true 4 ttlHour storedHour (by decide) rfl

/-! ## C4: the persisted-record invariant -/

/-- C4: every record the update path writes satisfies
`blocked_attempts ≤ request_count` and `bytes_transferred ≥ 0`, whether it
was freshly created or merged with a stored record satisfying the
invariant. -/
theorem updateHostStats_invariant :
    ∀ (resolveIPs : Str → Option Str) (now : Nat) (st : RedisState)
      (key host : Str) (blocked : Bool) (bytes ttl : Nat)
      (st' : RedisState) (w : WriteEvent),
    (∀ old, st.get key = .found old → old.blockedAttempts ≤ old.requestCount) →
    updateHostStats resolveIPs now st key host blocked bytes ttl = some (st', w) →
    w.record.blockedAttempts ≤ w.record.requestCount ∧
      0 ≤ w.record.bytesTransferred := by
  intro resolveIPs now st key host blocked bytes ttl st' w hinv heq
  unfold updateHostStats at heq
  cases hget : st.get key with
  | ioError => rw [hget] at heq; exact absurd heq (by simp)
  | corrupt => rw [hget] at heq; exact absurd heq (by simp)
  | missing =>
    rw [hget] at heq
    cases hsf : st.setFails key with
    | true => rw [hsf] at heq; simp at heq
    | false =>
      rw [hsf] at heq
      simp at heq
      obtain ⟨-, hw⟩ := heq
      subst hw
      exact ⟨by simp [freshHostStats], by simp⟩
  | found old =>
    rw [hget] at heq
    have hold := hinv old hget
    cases hsf : st.setFails key with
    | true => rw [hsf] at heq; simp at heq
    | false =>
      rw [hsf] at heq
      simp at heq
      obtain ⟨-, hw⟩ := heq
      subst hw
      refine ⟨?_, by simp⟩
      show (mergeHostStats old blocked bytes now).blockedAttempts ≤
        (mergeHostStats old blocked bytes now).requestCount
      simp only [mergeHostStats]
      cases blocked <;> simp <;> omega

/-- C4 witness: the invariant theorem applied to a fresh record written
into the empty store. -/
theorem updateHostStats_invariant_witness :
    (⟨kSample, ⟨"h".toList, "unknown".toList, 1, 1, 0, 3, true, 0⟩,
        ttlHour⟩ : WriteEvent).record.blockedAttempts ≤
      (⟨kSample, ⟨"h".toList, "unknown".toList, 1, 1, 0, 3, true, 0⟩,
        ttlHour⟩ : WriteEvent).record.requestCount ∧
    0 ≤ (⟨kSample, ⟨"h".toList, "unknown".toList, 1, 1, 0, 3, true, 0⟩,
        ttlHour⟩ : WriteEvent).record.bytesTransferred :=
  updateHostStats_invariant noResolve 0 cleanStore kSample "h".toList true 3 ttlHour
    (cleanStore.set kSample ⟨"h".toList, "unknown".toList, 1, 1, 0, 3, true, 0⟩)
    ⟨kSample, ⟨"h".toList, "unknown".toList, 1, 1, 0, 3, true, 0⟩, ttlHour⟩
    (fun old h => nomatch (show GetResult.missing = .found old from h))
    rfl

/-! ## C9: private addresses never reach the geolocation pipeline -/

/-- C9: for every host string whose port-stripped form parses as an IP
inside one of the eight private/loopback blocks, `RecordHostLocation` does
nothing: no lookup is dispatched, hence no upstream request is issued. -/
theorem recordHostLocation_private_skips :
    ∀ (parseIP : Str → Option IPAddr) (splitHostPort : Str → Option Str)
      (host : Str) (ip : IPAddr),
    parseIP ((splitHostPort host).getD host) = some ip →
    privateIPBlocks.any (fun b => cidrContains b ip) = true →
    RecordHostLocation parseIP splitHostPort host = .skip := by
  intro parseIP splitHostPort host ip hparse hpriv
  have hp : isPrivateIP parseIP ((splitHostPort host).getD host) = true := by
    unfold isPrivateIP
    rw [hparse]
    exact hpriv
  show (if isPrivateIP parseIP ((splitHostPort host).getD host) = true then GeoAction.skip
    else GeoAction.dispatchLookup ((splitHostPort host).getD host)) = GeoAction.skip
  rw [hp]
  simp

/-- C9 witness: the theorem applied to the host `10.0.0.1:8080` with a
`net.ParseIP`/`net.SplitHostPort` oracle pair behaving as Go's. -/
theorem recordHostLocation_private_skips_witness :
    RecordHostLocation (fun _ => some (.v4 (10 * 2 ^ 24 + 1)))
      (fun _ => some "10.0.0.1".toList) "10.0.0.1:8080".toList = .skip :=
  recordHostLocation_private_skips (fun _ => some (.v4 (10 * 2 ^ 24 + 1)))
    (fun _ => some "10.0.0.1".toList) "10.0.0.1:8080".toList
    (.v4 (10 * 2 ^ 24 + 1)) rfl (by decide)

/-! ## C10: the three-tier geolocation lookup -/

/-- C10: the lookup tiers are consulted in order and short-circuit: an LRU
hit returns without reading the store or calling upstream; a store hit
populates the LRU and returns without an upstream call; the upstream is
called exactly when both tiers miss (a store read error counts as a miss),
and on upstream success the LRU is populated synchronously and one
asynchronous store write of `geo:<host>` with a 7-day TTL is scheduled. -/
theorem lookup_three_tiers :
    ∀ (lru : List (Str × GeoData)) (store : Str → GeoGet)
      (upstream : Str → Option GeoData) (host : Str),
    (∀ d, List.lookup host lru = some d →
        Lookup lru store upstream host = ⟨some d, lru, false, false, []⟩) ∧
    (List.lookup host lru = none → ∀ d, store host = .found d →
        Lookup lru store upstream host =
          ⟨some d, setAssoc lru host d, true, false, []⟩) ∧
    (List.lookup host lru = none →
      (store host = .missing ∨ store host = .ioError) →
        (Lookup lru store upstream host).upstreamCalled = true ∧
        ∀ g, upstream host = some g →
          Lookup lru store upstream host =
            ⟨some g, setAssoc lru host g, true, true,
              [("geo:".toList ++ host, 86400 * 7, g)]⟩) ∧
    ((Lookup lru store upstream host).upstreamCalled = true →
        List.lookup host lru = none ∧ ∀ d, store host ≠ .found d) := by
  intro lru store upstream host
  refine ⟨?_, ?_, ?_, ?_⟩
  · intro d hd
    unfold Lookup
    rw [hd]
  · intro hmiss d hd
    unfold Lookup
    rw [hmiss, hd]
  · intro hmiss hst
    constructor
    · unfold Lookup
      rw [hmiss]
      rcases hst with h | h <;> rw [h] <;> cases hu : upstream host <;> simp [hu]
    · intro g hg
      unfold Lookup
      rw [hmiss]
      rcases hst with h | h <;> rw [h, hg]
  · intro hcall
    unfold Lookup at hcall
    cases hlru : List.lookup host lru with
    | some d => rw [hlru] at hcall; exact absurd hcall (by simp)
    | none =>
      rw [hlru] at hcall
      refine ⟨rfl, ?_⟩
      intro d hd
      rw [hd] at hcall
      simp at hcall

/-- C10 witness: the three-tier theorem applied to an empty LRU, a store
holding a record for `example.com`, and an upstream oracle. -/
theorem lookup_three_tiers_witness :
    Lookup [] (fun _ => .found ⟨"US".toList, [], [], [], []⟩) (fun _ => none)
        "example.com".toList =
      ⟨some ⟨"US".toList, [], [], [], []⟩,
        setAssoc [] "example.com".toList ⟨"US".toList, [], [], [], []⟩,
        true, false, []⟩ :=
  (lookup_three_tiers [] (fun _ => .found ⟨"US".toList, [], [], [], []⟩)
    (fun _ => none) "example.com".toList).2.1 rfl
    ⟨"US".toList, [], [], [], []⟩ rfl

/-! ## C5: blocklist loading and matching -/

theorem blacklistStep_skip (regs : List CompiledRegex) (line : Str)
    (h : trimSpace line = [] ∨ (trimSpace line).headD ' ' = '#' ∨
      goRegexCompile (trimSpace line) = none) :
    blacklistStep regs line = regs := by
  rcases h with h | h | h
  · unfold blacklistStep
    rw [h]
    simp
  · unfold blacklistStep
    show (if (decide (trimSpace line = []) ||
          decide (List.headD (trimSpace line) ' ' = '#')) = true
        then regs
        else match goRegexCompile (trimSpace line) with
          | none => regs
          | some r => regs ++ [r]) = regs
    rw [h]
    simp
  · unfold blacklistStep
    show (if (decide (trimSpace line = []) ||
          decide (List.headD (trimSpace line) ' ' = '#')) = true
        then regs
        else match goRegexCompile (trimSpace line) with
          | none => regs
          | some r => regs ++ [r]) = regs
    rw [h]
    split <;> rfl

/-- C5: `is_blocked` returns true iff some compiled pattern matches the
host; with zero patterns every host is allowed; blank lines and `#` lines
contribute no pattern; and a line that fails to compile is skipped while
the load still produces the patterns of the remaining lines. -/
theorem blocklist_semantics :
    (∀ (regs : List CompiledRegex) (host : Str),
        isBlocked regs host = true ↔
          ∃ r, r ∈ regs ∧ regexMatchString r host = true) ∧
    (∀ host : Str, isBlocked [] host = false) ∧
    (∀ (pre post : List Str) (line : Str),
        trimSpace line = [] ∨ (trimSpace line).headD ' ' = '#' →
        loadBlacklist (pre ++ line :: post) = loadBlacklist (pre ++ post)) ∧
    (∀ (pre post : List Str) (line : Str),
        goRegexCompile (trimSpace line) = none →
        loadBlacklist (pre ++ line :: post) = loadBlacklist (pre ++ post)) := by
  refine ⟨?_, ?_, ?_, ?_⟩
  · intro regs host
    cases regs with
    | nil => simp [isBlocked]
    | cons a as =>
      simp [isBlocked, List.any_eq_true]
  · intro host
    rfl
  · intro pre post line h
    unfold loadBlacklist
    rw [List.foldl_append, List.foldl_append, List.foldl_cons,
      blacklistStep_skip _ _ (by tauto)]
  · intro pre post line h
    unfold loadBlacklist
    rw [List.foldl_append, List.foldl_append, List.foldl_cons,
      blacklistStep_skip _ _ (Or.inr (Or.inr h))]

/-- C5 witness: the semantics theorem applied to the scenario blocklist, a
comment line, and a line that does not compile. -/
theorem blocklist_semantics_witness :
    (isBlocked adsRegs "ads.example.com".toList = true ↔
      ∃ r, r ∈ adsRegs ∧ regexMatchString r "ads.example.com".toList = true) ∧
    loadBlacklist (["a".toList] ++ "# comment".toList :: ["b".toList]) =
      loadBlacklist (["a".toList] ++ ["b".toList]) ∧
    loadBlacklist (["a".toList] ++ "ads(".toList :: ["b".toList]) =
      loadBlacklist (["a".toList] ++ ["b".toList]) :=
  ⟨blocklist_semantics.1 adsRegs "ads.example.com".toList,
   blocklist_semantics.2.2.1 ["a".toList] ["b".toList] "# comment".toList
     (Or.inr (by decide)),
   blocklist_semantics.2.2.2 ["a".toList] ["b".toList] "ads(".toList (by decide)⟩

/-! ## C1: the flush cycle -/

theorem updateHostStats_write_shape (resolveIPs : Str → Option Str) (now : Nat)
    (st : RedisState) (key host : Str) (blocked : Bool) (bytes ttl : Nat)
    (st' : RedisState) (w : WriteEvent)
    (h : updateHostStats resolveIPs now st key host blocked bytes ttl = some (st', w)) :
    w.key = key ∧ w.ttlSeconds = ttl := by
  unfold updateHostStats at h
  cases hget : st.get key <;> rw [hget] at h
  case ioError => exact absurd h (by simp)
  case corrupt => exact absurd h (by simp)
  case missing =>
    cases hsf : st.setFails key <;> rw [hsf] at h
    · simp at h
      obtain ⟨-, hw⟩ := h
      subst hw
      exact ⟨rfl, rfl⟩
    · simp at h
  case found old =>
    cases hsf : st.setFails key <;> rw [hsf] at h
    · simp at h
      obtain ⟨-, hw⟩ := h
      subst hw
      exact ⟨rfl, rfl⟩
    · simp at h

theorem recordHostActivity_ok (resolveIPs : Str → Option Str) (now : Nat)
    (st : RedisState) (host : Str) (blocked : Bool) (bytes : Nat)
    (st' : RedisState) (ws : List WriteEvent)
    (h : RecordHostActivity resolveIPs now st host blocked bytes = (st', ws, true)) :
    ∃ r1 r2, ws =
      [⟨hourKeyOf (stripPortLastColon host) now, r1, ttlHour⟩,
       ⟨dayKeyOf (stripPortLastColon host) now, r2, ttlDay⟩] := by
  simp only [RecordHostActivity] at h
  by_cases hh : host = []
  · rw [if_pos hh] at h
    simp at h
  · rw [if_neg hh] at h
    cases h1 : updateHostStats resolveIPs now st (hourKeyOf (stripPortLastColon host) now)
        (stripPortLastColon host) blocked bytes ttlHour with
    | none => rw [h1] at h; simp at h
    | some p1 =>
      obtain ⟨st1, w1⟩ := p1
      rw [h1] at h
      dsimp only [] at h
      cases h2 : updateHostStats resolveIPs now st1 (dayKeyOf (stripPortLastColon host) now)
          (stripPortLastColon host) blocked bytes ttlDay with
      | none => rw [h2] at h; simp at h
      | some p2 =>
        obtain ⟨st2, w2⟩ := p2
        rw [h2] at h
        simp at h
        obtain ⟨hk1, ht1⟩ := updateHostStats_write_shape _ _ _ _ _ _ _ _ _ _ h1
        obtain ⟨hk2, ht2⟩ := updateHostStats_write_shape _ _ _ _ _ _ _ _ _ _ h2
        refine ⟨w1.record, w2.record, ?_⟩
        obtain ⟨k1, r1, t1⟩ := w1
        obtain ⟨k2, r2, t2⟩ := w2
        simp_all

theorem flushEntry_spec (resolveIPs : Str → Option Str) (now : Nat)
    (st : RedisState) (host : Str) (s : HostStats) :
    ((flushEntry resolveIPs now st host s).1.before.connections = 0 ∧
      (flushEntry resolveIPs now st host s).1.before.blockedAttempts = 0 →
      (flushEntry resolveIPs now st host s).1.after =
        (flushEntry resolveIPs now st host s).1.before ∧
      (flushEntry resolveIPs now st host s).1.writes = [] ∧
      (flushEntry resolveIPs now st host s).1.outcome = .skipped) ∧
    ((flushEntry resolveIPs now st host s).1.outcome = .persisted →
      ((flushEntry resolveIPs now st host s).1.before.connections > 0 ∨
        (flushEntry resolveIPs now st host s).1.before.blockedAttempts > 0) ∧
      (flushEntry resolveIPs now st host s).1.after.connections = 0 ∧
      (flushEntry resolveIPs now st host s).1.after.blockedAttempts = 0 ∧
      (flushEntry resolveIPs now st host s).1.after.bytesTransferred = 0 ∧
      ∃ r1 r2, (flushEntry resolveIPs now st host s).1.writes =
        [⟨hourKeyOf (stripPortLastColon (flushEntry resolveIPs now st host s).1.host) now,
            r1, ttlHour⟩,
         ⟨dayKeyOf (stripPortLastColon (flushEntry resolveIPs now st host s).1.host) now,
            r2, ttlDay⟩]) ∧
    ((flushEntry resolveIPs now st host s).1.outcome ≠ .persisted →
      (flushEntry resolveIPs now st host s).1.after.connections =
        (flushEntry resolveIPs now st host s).1.before.connections ∧
      (flushEntry resolveIPs now st host s).1.after.blockedAttempts =
        (flushEntry resolveIPs now st host s).1.before.blockedAttempts ∧
      (flushEntry resolveIPs now st host s).1.after.bytesTransferred =
        (flushEntry resolveIPs now st host s).1.before.bytesTransferred) := by
  rcases hra : RecordHostActivity resolveIPs now st host s.blocked s.bytesTransferred
    with ⟨st', ws, ok⟩
  cases hcnd : (decide (s.connections > 0) || decide (s.blockedAttempts > 0)) with
  | false =>
    have hfe : flushEntry resolveIPs now st host s = (⟨host, s, s, [], .skipped⟩, st) := by
      unfold flushEntry
      rw [hcnd, if_neg (by simp)]
    rw [hfe]
    refine ⟨fun _ => ⟨rfl, rfl, rfl⟩, fun hp => ?_, fun _ => ⟨rfl, rfl, rfl⟩⟩
    exact absurd hp (by simp)
  | true =>
    have hnz : s.connections > 0 ∨ s.blockedAttempts > 0 := by
      rcases Bool.or_eq_true_iff.mp hcnd with h | h
      · exact Or.inl (of_decide_eq_true h)
      · exact Or.inr (of_decide_eq_true h)
    cases ok with
    | true =>
      have hfe : flushEntry resolveIPs now st host s =
          (⟨host, s, ⟨s.host, s.ips, 0, s.requestCount, 0, 0, s.blocked, now⟩,
            ws, .persisted⟩, st') := by
        unfold flushEntry
        rw [hcnd, if_pos rfl]
        dsimp only
        rw [hra]
        exact rfl
      rw [hfe]
      refine ⟨?_, ?_, ?_⟩
      · intro hz
        dsimp only at hz
        exact absurd hnz (by omega)
      · intro _
        exact ⟨hnz, rfl, rfl, rfl,
          recordHostActivity_ok resolveIPs now st host s.blocked s.bytesTransferred
            st' ws hra⟩
      · intro hnp
        exact absurd rfl hnp
    | false =>
      have hfe : flushEntry resolveIPs now st host s =
          (⟨host, s, ⟨s.host, s.ips, s.connections, s.requestCount, s.blockedAttempts,
              s.bytesTransferred, s.blocked, now⟩, ws, .failed⟩, st') := by
        unfold flushEntry
        rw [hcnd, if_pos rfl]
        dsimp only
        rw [hra]
        exact rfl
      rw [hfe]
      refine ⟨?_, ?_, ?_⟩
      · intro hz
        dsimp only at hz
        exact absurd hnz (by omega)
      · intro hp
        exact absurd hp (by simp)
      · intro _
        exact ⟨rfl, rfl, rfl⟩

/-- C1 counterexample: an accumulator entry whose only nonzero delta is
`bytes_transferred` (connections = blocked_attempts = 0, bytes = 5) is not
flushed at all: `saveStatsToRedis` tests only
`Connections > 0 || BlockedAttempts > 0`, so the entry keeps its 5 bytes,
produces no writes, and no HOUR or DAY key is created — the claim's
"connections + blocked_attempts + bytes_transferred nonzero" trigger and
post-flush zeroing are false for it. -/
theorem flush_skips_bytes_only_entry :
    (saveStatsToRedis noResolve tNoon cleanStore
        [("example.com".toList, bytesOnlyEntry)]).1 =
      [⟨"example.com".toList, bytesOnlyEntry, bytesOnlyEntry, [], .skipped⟩] ∧
    bytesOnlyEntry.bytesTransferred = 5 ∧
    (saveStatsToRedis noResolve tNoon cleanStore
        [("example.com".toList, bytesOnlyEntry)]).2.data = [] := by
  decide

/-- C1 (amended): in every flush cycle, an entry with
`connections = blocked_attempts = 0` is left untouched and produces no
writes (even when `bytes_transferred` is nonzero); an entry that was
persisted had `connections > 0` or `blocked_attempts > 0`, has all three
delta counters zeroed afterwards, and produced exactly one HOUR-key write
and one DAY-key write; an entry whose persist did not succeed keeps its
three delta counters unchanged. -/
theorem saveStatsToRedis_flush_cycle :
    ∀ (resolveIPs : Str → Option Str) (now : Nat) (st : RedisState)
      (acc : List (Str × HostStats)) (e : FlushResult),
    e ∈ (saveStatsToRedis resolveIPs now st acc).1 →
    ((e.before.connections = 0 ∧ e.before.blockedAttempts = 0 →
        e.after = e.before ∧ e.writes = [] ∧ e.outcome = .skipped) ∧
     (e.outcome = .persisted →
        (e.before.connections > 0 ∨ e.before.blockedAttempts > 0) ∧
        e.after.connections = 0 ∧ e.after.blockedAttempts = 0 ∧
        e.after.bytesTransferred = 0 ∧
        ∃ r1 r2, e.writes =
          [⟨hourKeyOf (stripPortLastColon e.host) now, r1, ttlHour⟩,
           ⟨dayKeyOf (stripPortLastColon e.host) now, r2, ttlDay⟩]) ∧
     (e.outcome ≠ .persisted →
        e.after.connections = e.before.connections ∧
        e.after.blockedAttempts = e.before.blockedAttempts ∧
        e.after.bytesTransferred = e.before.bytesTransferred)) := by
  intro resolveIPs now st acc
  induction acc generalizing st with
  | nil => intro e he; exact absurd he (by simp [saveStatsToRedis])
  | cons p rest ih =>
    obtain ⟨host, s⟩ := p
    intro e he
    rw [show saveStatsToRedis resolveIPs now st ((host, s) :: rest) =
        ((flushEntry resolveIPs now st host s).1 ::
          (saveStatsToRedis resolveIPs now (flushEntry resolveIPs now st host s).2 rest).1,
         (saveStatsToRedis resolveIPs now (flushEntry resolveIPs now st host s).2 rest).2)
      from rfl] at he
    rcases List.mem_cons.mp he with h1 | h2
    · subst h1
      exact flushEntry_spec resolveIPs now st host s
    · exact ih (flushEntry resolveIPs now st host s).2 e h2

/-- C1 witness: the flush-cycle theorem applied to the one-entry
accumulator holding `bytesOnlyEntry`, whose flush result is known
concretely. -/
theorem saveStatsToRedis_flush_cycle_witness :
    (⟨"example.com".toList, bytesOnlyEntry, bytesOnlyEntry, [],
        .skipped⟩ : FlushResult).after =
      (⟨"example.com".toList, bytesOnlyEntry, bytesOnlyEntry, [],
        .skipped⟩ : FlushResult).before ∧
    (⟨"example.com".toList, bytesOnlyEntry, bytesOnlyEntry, [],
        .skipped⟩ : FlushResult).writes = [] ∧
    (⟨"example.com".toList, bytesOnlyEntry, bytesOnlyEntry, [],
        .skipped⟩ : FlushResult).outcome = .skipped :=
  (saveStatsToRedis_flush_cycle noResolve tNoon cleanStore
    [("example.com".toList, bytesOnlyEntry)]
    ⟨"example.com".toList, bytesOnlyEntry, bytesOnlyEntry, [], .skipped⟩
    (by decide)).1 ⟨rfl, rfl⟩

/-! ## C8: reversed hour ranges -/

theorem hourKeyKeep_reversed (st : RedisState) (fromHour toHour : Int) (k : Str)
    (hrev : toHour < fromHour) : hourKeyKeep st fromHour toHour k = false := by
  unfold hourKeyKeep
  cases hh : hourOfHourKey k with
  | none => rfl
  | some h =>
    rcases le_or_lt fromHour h with hf | hf
    · have hto : ¬(h ≤ toHour) := by omega
      simp [hto]
    · have hfrom : ¬(fromHour ≤ h) := by omega
      simp [hfrom]

theorem getHourlyStats_reversed (st : RedisState) (dateStr : Str)
    (fromHour toHour : Int) (hkf : st.keysFail = false) (hrev : toHour < fromHour) :
    GetHourlyStats st dateStr fromHour toHour = some ([], []) := by
  unfold GetHourlyStats
  rw [hkf]
  have hflt : ∀ keys : List Str, keys.filter (hourKeyKeep st fromHour toHour) = [] := by
    intro keys
    apply List.filter_eq_nil_iff.mpr
    intro k _
    rw [hourKeyKeep_reversed st fromHour toHour k hrev]
    simp
  simp only [hflt]
  simp

/-- C8 counterexample: a reversed hour range with both bounds inside 0..23
passes the handler's only validation (`0 ≤ h ≤ 23` per bound) and returns
HTTP 200 with empty keys and records — not the HTTP 400 the claim
requires. -/
theorem handleHourlyStats_reversed_is_ok :
    HandleHourlyStats hourScenarioStore "2024-03-22".toList 16 10 = .ok [] [] ∧
    (HandleHourlyStats hourScenarioStore "2024-03-22".toList 16 10).isBadRequest
      = false := by
  decide

/-- C8 (amended): a query_by_hour request with a reversed hour range
(from_hour > to_hour, both in 0..23) does not fail: the handler responds
HTTP 200 with empty keys and records; only hours outside 0..23 produce
HTTP 400. -/
theorem handleHourlyStats_reversed_ok_empty :
    ∀ (st : RedisState) (dateStr : Str) (fromHour toHour : Int) (d : Nat),
    parseDateStr dateStr = some d → st.keysFail = false →
    0 ≤ fromHour → fromHour ≤ 23 → 0 ≤ toHour → toHour ≤ 23 → toHour < fromHour →
    HandleHourlyStats st dateStr fromHour toHour = .ok [] [] := by
  intro st dateStr fromHour toHour d hd hkf h1 h2 h3 h4 hrev
  unfold HandleHourlyStats
  rw [hd]
  dsimp only
  rw [if_neg (by omega)]
  rw [getHourlyStats_reversed st (formatDay d) fromHour toHour hkf hrev]

/-- C8 witness: the amended theorem applied to the empty store with the
reversed range 20..5. -/
theorem handleHourlyStats_reversed_ok_empty_witness :
    HandleHourlyStats cleanStore "2024-03-22".toList 20 5 = .ok [] [] :=
  handleHourlyStats_reversed_ok_empty cleanStore "2024-03-22".toList 20 5
    (daysFromCivil 2024 3 22) (by decide) rfl (by decide) (by decide) (by decide)
    (by decide) (by decide)

/-! ## C7: the date-range window of query_by_date -/

theorem parseDateStr_nil : parseDateStr [] = none := rfl

/-- C7 counterexample: with `from_date=2024-03-20, to_date=2024-03-21`, a
DAY key stamped `2024-03-22` — exactly `to_date + 1 day` — is returned:
the handler adds 24 h to `toDate` and `GetDailyStats` keeps keys with
`!keyDate.After(toDate)`, so the boundary is inclusive, not exclusive. -/
theorem handleDailyStats_returns_boundary_key :
    HandleDailyStats dayBoundaryStore "2024-03-20".toList "2024-03-21".toList [] [] =
      .ok ["HOST:a.com:DAY:2024-03-22".toList]
        [("HOST:a.com:DAY:2024-03-22".toList, sampleRec)] ∧
    parseDateStr "2024-03-21".toList = some (daysFromCivil 2024 3 21) ∧
    dateOfKey false "HOST:a.com:DAY:2024-03-22".toList =
      some (daysFromCivil 2024 3 21 + 1) := by
  decide

/-- C7 (amended): every record returned by the daily-stats handler
corresponds to a key whose stamp decodes (dropping the hour for HOUR keys)
to a date in the closed range `[from_date, to_date + 1 day]` — i.e. in the
half-open range `[from_date, to_date + 2 days)`; a key dated exactly
`to_date + 1 day` can be returned. -/
theorem handleDailyStats_range :
    ∀ (st : RedisState) (fromStr toStr hostFilter granParam : Str)
      (keys : List Str) (recs : List (Str × HostStats)) (f t : Nat),
    parseDateStr fromStr = some f → parseDateStr toStr = some t →
    HandleDailyStats st fromStr toStr hostFilter granParam = .ok keys recs →
    ∀ k, k ∈ keys →
      ∃ d, dateOfKey
          (decide ((if granParam = [] then "day".toList else granParam) = "hour".toList)) k
          = some d ∧ f ≤ d ∧ d ≤ t + 1 := by
  intro st fromStr toStr hostFilter granParam keys recs f t hf ht hok k hk
  have hfne : fromStr ≠ [] := fun h => by
    rw [h, parseDateStr_nil] at hf
    exact Option.noConfusion hf
  have htne : toStr ≠ [] := fun h => by
    rw [h, parseDateStr_nil] at ht
    exact Option.noConfusion ht
  unfold HandleDailyStats at hok
  rw [if_neg (by simp [hfne, htne])] at hok
  rw [hf] at hok
  dsimp only at hok
  rw [ht] at hok
  dsimp only at hok
  generalize hG : (if granParam = [] then "day".toList else granParam) = G at hok ⊢
  have hGne : G ≠ [] := by
    rw [← hG]
    by_cases h : granParam = []
    · simp [h]
    · simp [h]
  by_cases hgran : (G ≠ "day".toList ∧ G ≠ "hour".toList)
  · rw [if_pos hgran] at hok
    exact absurd hok (by simp)
  · rw [if_neg hgran] at hok
    unfold GetDailyStats at hok
    rw [if_neg hGne] at hok
    dsimp only at hok
    cases hkf : st.keysFail with
    | true =>
      rw [hkf] at hok
      rw [if_pos rfl] at hok
      exact absurd hok (by simp)
    | false =>
      rw [hkf] at hok
      rw [if_neg (by simp)] at hok
      dsimp only at hok
      simp only [ApiResult.ok.injEq] at hok
      obtain ⟨hkeys, -⟩ := hok
      rw [← hkeys] at hk
      obtain ⟨-, hkeep⟩ := List.mem_filter.mp hk
      unfold dayKeyKeep at hkeep
      cases hd : dateOfKey (decide (G = "hour".toList)) k with
      | none => rw [hd] at hkeep; exact absurd hkeep (by simp)
      | some dd =>
        rw [hd] at hkeep
        simp only [Bool.and_eq_true, Bool.not_eq_true', decide_eq_false_iff_not] at hkeep
        obtain ⟨⟨hlo, hhi⟩, -⟩ := hkeep
        exact ⟨dd, rfl, by omega, by omega⟩

/-- C7 witness: the range theorem applied to the boundary scenario, where
the returned key decodes to exactly `to_date + 1 day`. -/
theorem handleDailyStats_range_witness :
    ∃ d, dateOfKey
        (decide ((if ([] : Str) = [] then "day".toList else ([] : Str)) = "hour".toList))
        "HOST:a.com:DAY:2024-03-22".toList = some d ∧
      daysFromCivil 2024 3 20 ≤ d ∧ d ≤ daysFromCivil 2024 3 21 + 1 :=
  handleDailyStats_range dayBoundaryStore "2024-03-20".toList "2024-03-21".toList
    [] [] ["HOST:a.com:DAY:2024-03-22".toList]
    [("HOST:a.com:DAY:2024-03-22".toList, sampleRec)]
    (daysFromCivil 2024 3 20) (daysFromCivil 2024 3 21)
    (by decide) (by decide) (by decide)
    "HOST:a.com:DAY:2024-03-22".toList (by decide)

/-! ## C3: the blocked-HTTP end-to-end scenario -/

/-- C3 counterexample: with blocklist `^ads\.example\.com$` and a proxied
`GET http://ads.example.com/x`, the response is indeed `403 "Blocked"`,
but after one flush NO HOUR key exists for `ads.example.com`: the blocked
HTTP path records with `incr=false`, so the accumulator entry has
`connections = blocked_attempts = 0` and `saveStatsToRedis` never persists
it — the claim's `blocked=true, blocked_attempts=1, request_count=1`
record is never written. -/
theorem blocked_http_writes_no_hour_key :
    (HandleHTTP adsRegs noResolve tNoon [] "ads.example.com".toList []
        .unreachable).1 = .blockedResp ∧
    List.lookup (hourKeyOf "ads.example.com".toList tNoon)
      (saveStatsToRedis noResolve tNoon cleanStore
        (HandleHTTP adsRegs noResolve tNoon [] "ads.example.com".toList []
          .unreachable).2).2.data = none := by
  decide

/-- C3 (amended): with blocklist `^ads\.example\.com$` and a proxied
`GET http://ads.example.com/x`, the response is `403` with body
`"Blocked"`; the accumulator entry for `ads.example.com` afterwards has
`blocked = true` with `connections = request_count = blocked_attempts =
bytes_transferred = 0`; and one flush performs no writes and leaves the
store empty, so no HOUR key for `ads.example.com` exists. -/
theorem blocked_http_scenario :
    HandleHTTP adsRegs noResolve tNoon [] "ads.example.com".toList []
        .unreachable =
      (.blockedResp,
        [("ads.example.com".toList,
          ⟨"ads.example.com".toList, "unknown".toList, 0, 0, 0, 0, true, tNoon⟩)]) ∧
    (saveStatsToRedis noResolve tNoon cleanStore
        [("ads.example.com".toList,
          ⟨"ads.example.com".toList, "unknown".toList, 0, 0, 0, 0, true, tNoon⟩)]).1 =
      [⟨"ads.example.com".toList,
        ⟨"ads.example.com".toList, "unknown".toList, 0, 0, 0, 0, true, tNoon⟩,
        ⟨"ads.example.com".toList, "unknown".toList, 0, 0, 0, 0, true, tNoon⟩,
        [], .skipped⟩] ∧
    (saveStatsToRedis noResolve tNoon cleanStore
        [("ads.example.com".toList,
          ⟨"ads.example.com".toList, "unknown".toList, 0, 0, 0, 0, true, tNoon⟩)]).2.data
      = [] := by
  decide

/-! ## C6: split and glob machinery -/

theorem splitSep_cons_eq (c x : Char) (xs : Str) :
    splitSep c (x :: xs) =
      match splitSep c xs with
      | [] => [[]]
      | r :: rs => if x = c then [] :: r :: rs else (x :: r) :: rs := rfl

theorem splitSep_ne_nil (c : Char) (s : Str) : splitSep c s ≠ [] := by
  cases s with
  | nil => simp [splitSep]
  | cons x xs =>
    rw [splitSep_cons_eq]
    cases h : splitSep c xs with
    | nil => simp
    | cons r rs =>
      by_cases hx : x = c <;> simp [hx]

theorem splitSep_no_sep {c : Char} {a : Str} (h : c ∉ a) : splitSep c a = [a] := by
  induction a with
  | nil => rfl
  | cons x xs ih =>
    have hx : ¬(x = c) := fun he => h (he ▸ List.mem_cons_self x xs)
    have hxs : c ∉ xs := fun hm => h (List.mem_cons_of_mem x hm)
    rw [splitSep_cons_eq, ih hxs]
    simp [hx]

theorem splitSep_append {c : Char} {a : Str} (h : c ∉ a) (b : Str) :
    splitSep c (a ++ c :: b) = a :: splitSep c b := by
  induction a with
  | nil =>
    show splitSep c (c :: b) = [] :: splitSep c b
    rw [splitSep_cons_eq]
    cases hb : splitSep c b with
    | nil => exact absurd hb (splitSep_ne_nil c b)
    | cons r rs => simp
  | cons x xs ih =>
    have hx : ¬(x = c) := fun he => h (he ▸ List.mem_cons_self x xs)
    have hxs : c ∉ xs := fun hm => h (List.mem_cons_of_mem x hm)
    show splitSep c (x :: (xs ++ c :: b)) = (x :: xs) :: splitSep c b
    rw [splitSep_cons_eq, ih hxs]
    simp [hx]

theorem splitSep_length (c : Char) (s : Str) :
    (splitSep c s).length = s.count c + 1 := by
  induction s with
  | nil => rfl
  | cons x xs ih =>
    rw [splitSep_cons_eq]
    cases h : splitSep c xs with
    | nil => exact absurd h (splitSep_ne_nil c xs)
    | cons r rs =>
      rw [h] at ih
      by_cases hx : x = c
      · have hcx : (c == x) = true := by subst hx; simp
        simp [hx, hcx, List.count_cons] at ih ⊢
        omega
      · have hcx : (c == x) = false := beq_eq_false_iff_ne.mpr (fun he => hx he.symm)
        simp [hx, hcx, List.count_cons] at ih ⊢
        omega

theorem mem_suffixesOf {s x : Str} : x ∈ suffixesOf s ↔ ∃ y, s = y ++ x := by
  induction s with
  | nil =>
    simp only [suffixesOf, List.mem_singleton]
    constructor
    · rintro rfl
      exact ⟨[], rfl⟩
    · rintro ⟨y, hy⟩
      cases y with
      | nil => exact hy.symm
      | cons a as => exact absurd hy (by simp)
  | cons c s ih =>
    simp only [suffixesOf, List.mem_cons]
    constructor
    · rintro (rfl | hm)
      · exact ⟨[], rfl⟩
      · obtain ⟨y, rfl⟩ := ih.mp hm
        exact ⟨c :: y, rfl⟩
    · rintro ⟨y, hy⟩
      cases y with
      | nil => exact Or.inl hy.symm
      | cons a as =>
        simp only [List.cons_append, List.cons.injEq] at hy
        obtain ⟨-, hy2⟩ := hy
        exact Or.inr (ih.mpr ⟨as, hy2⟩)

theorem globMatch_cons_eq (p : Char) (ps : List Char) (s : Str) :
    globMatch (p :: ps) s =
      if p = '*' then (suffixesOf s).any (globMatch ps)
      else
        match s with
        | [] => false
        | c :: s' => decide (p = c) && globMatch ps s' := rfl

theorem globMatch_nil_iff (s : Str) : globMatch [] s = true ↔ s = [] := by
  cases s <;> simp [globMatch]

theorem globMatch_lit_cons {p : Char} (hp : p ≠ '*') (ps : List Char) (s : Str) :
    globMatch (p :: ps) s = true ↔ ∃ s', s = p :: s' ∧ globMatch ps s' = true := by
  rw [globMatch_cons_eq, if_neg hp]
  cases s with
  | nil => simp
  | cons c s' =>
    simp only [Bool.and_eq_true, decide_eq_true_eq]
    constructor
    · rintro ⟨rfl, hm⟩
      exact ⟨s', rfl, hm⟩
    · rintro ⟨s'', hs, hm⟩
      injection hs with h1 h2
      subst h1
      subst h2
      exact ⟨rfl, hm⟩

theorem globMatch_star_cons (ps : List Char) (s : Str) :
    globMatch ('*' :: ps) s = true ↔
      ∃ x s', s = x ++ s' ∧ globMatch ps s' = true := by
  rw [globMatch_cons_eq, if_pos rfl, List.any_eq_true]
  constructor
  · rintro ⟨s', hmem, hm⟩
    obtain ⟨y, rfl⟩ := mem_suffixesOf.mp hmem
    exact ⟨y, s', rfl, hm⟩
  · rintro ⟨x, s', rfl, hm⟩
    exact ⟨s', mem_suffixesOf.mpr ⟨x, rfl⟩, hm⟩

theorem globMatch_lit_append : ∀ {a : Str}, '*' ∉ a → ∀ (p : List Char) (s : Str),
    globMatch (a ++ p) s = true ↔ ∃ s', s = a ++ s' ∧ globMatch p s' = true := by
  intro a
  induction a with
  | nil =>
    intro _ p s
    simp only [List.nil_append]
    exact ⟨fun hm => ⟨s, rfl, hm⟩, fun ⟨s', hs, hm⟩ => hs ▸ hm⟩
  | cons x xs ih =>
    intro h p s
    have hx : x ≠ '*' := fun he => h (he ▸ List.mem_cons_self x xs)
    have hxs : '*' ∉ xs := fun hm => h (List.mem_cons_of_mem x hm)
    rw [List.cons_append, globMatch_lit_cons hx]
    constructor
    · rintro ⟨s1, rfl, hm⟩
      obtain ⟨s', rfl, hm'⟩ := (ih hxs p s1).mp hm
      exact ⟨s', rfl, hm'⟩
    · rintro ⟨s', rfl, hm⟩
      exact ⟨xs ++ s', rfl, (ih hxs p (xs ++ s')).mpr ⟨s', rfl, hm⟩⟩

theorem globMatch_star_any (s : Str) : globMatch ['*'] s = true := by
  rw [globMatch_star_cons]
  exact ⟨s, [], by simp, rfl⟩

theorem not_mem_of_all_digit {ds : Str} (hd : ∀ c ∈ ds, c.isDigit = true)
    {c : Char} (hc : c.isDigit = false) : c ∉ ds := by
  intro hm
  have h1 := hd c hm
  rw [h1] at hc
  exact Bool.noConfusion hc

theorem globMatch_hourPattern (date : Str) (hdate : '*' ∉ date) (k : Str) :
    globMatch ("HOST:*:HOUR:".toList ++ date ++ "-*".toList) k = true ↔
      ∃ x y, k = "HOST:".toList ++ x ++ ":HOUR:".toList ++ date ++ '-' :: y := by
  have hmid : '*' ∉ ":HOUR:".toList ++ date ++ ['-'] := by
    intro hm
    rcases List.mem_append.mp hm with hm1 | hm2
    · rcases List.mem_append.mp hm1 with ha | hb
      · exact absurd ha (by decide)
      · exact hdate hb
    · exact absurd hm2 (by decide)
  have hpat : "HOST:*:HOUR:".toList ++ date ++ "-*".toList =
      "HOST:".toList ++ ('*' :: ((":HOUR:".toList ++ date ++ ['-']) ++ ['*'])) := by
    have h1 : "HOST:*:HOUR:".toList ++ date ++ "-*".toList =
        ("HOST:".toList ++ '*' :: ":HOUR:".toList) ++ date ++ "-*".toList := rfl
    rw [h1]
    simp [List.append_assoc]
  rw [hpat, globMatch_lit_append (by decide) _ k]
  constructor
  · rintro ⟨s1, rfl, hm⟩
    rw [globMatch_star_cons] at hm
    obtain ⟨x, s2, rfl, hm2⟩ := hm
    rw [globMatch_lit_append hmid _ s2] at hm2
    obtain ⟨s3, rfl, -⟩ := hm2
    refine ⟨x, s3, ?_⟩
    simp [List.append_assoc]
  · rintro ⟨x, y, rfl⟩
    refine ⟨x ++ (":HOUR:".toList ++ date ++ '-' :: y), by simp [List.append_assoc], ?_⟩
    rw [globMatch_star_cons]
    refine ⟨x, (":HOUR:".toList ++ date ++ ['-']) ++ y, by simp [List.append_assoc], ?_⟩
    rw [globMatch_lit_append hmid]
    exact ⟨y, by simp [List.append_assoc], globMatch_star_any y⟩

theorem st_get_found_of_mem (st : RedisState) (k : Str)
    (hgf : st.getFails k = false) (hdf : st.decodeFails k = false)
    (hmem : k ∈ st.data.map Prod.fst) : ∃ r, st.get k = .found r := by
  have hsome := lookup_isSome_of_mem_fst st.data k hmem
  cases hl : List.lookup k st.data with
  | none => rw [hl] at hsome; exact absurd hsome (by simp)
  | some r =>
    refine ⟨r, ?_⟩
    unfold RedisState.get
    rw [hgf, hl, hdf]
    simp

theorem splitSep_colon_hourKey {x T : Str} (hx : ':' ∉ x) (hT : ':' ∉ T) :
    splitSep ':' ("HOST".toList ++ ':' :: (x ++ ':' ::
        ("HOUR".toList ++ ':' :: T))) =
      ["HOST".toList, x, "HOUR".toList, T] := by
  rw [splitSep_append (by decide), splitSep_append hx,
    splitSep_append (by decide), splitSep_no_sep hT]

theorem hourKey_normalize (x y date : Str) :
    "HOST:".toList ++ x ++ ":HOUR:".toList ++ date ++ '-' :: y =
      "HOST".toList ++ ':' :: (x ++ ':' ::
        ("HOUR".toList ++ ':' :: (date ++ '-' :: y))) := by
  have e1 : "HOST:".toList ++ x ++ ":HOUR:".toList ++ date ++ '-' :: y =
      ("HOST".toList ++ [':']) ++ x ++ (':' :: ("HOUR".toList ++ [':'])) ++
        date ++ '-' :: y := rfl
  rw [e1]
  simp [List.append_assoc]

theorem splitSep_dash_stamp {d1 d2 d3 y : Str}
    (h1 : '-' ∉ d1) (h2 : '-' ∉ d2) (h3 : '-' ∉ d3) (hy : '-' ∉ y) :
    splitSep '-' ((d1 ++ '-' :: d2 ++ '-' :: d3) ++ '-' :: y) =
      [d1, d2, d3, y] := by
  have e : (d1 ++ '-' :: d2 ++ '-' :: d3) ++ '-' :: y =
      d1 ++ '-' :: (d2 ++ '-' :: (d3 ++ '-' :: y)) := by
    simp [List.append_assoc]
  rw [e, splitSep_append h1, splitSep_append h2, splitSep_append h3,
    splitSep_no_sep hy]

theorem char_not_mem_append {c : Char} {a b : Str} (ha : c ∉ a) (hb : c ∉ b) :
    c ∉ a ++ b :=
  fun hm => (List.mem_append.mp hm).elim (fun h => ha h) (fun h => hb h)

theorem char_not_mem_cons {c x : Char} {l : Str} (hne : c ≠ x) (hl : c ∉ l) :
    c ∉ x :: l :=
  fun hm => (List.mem_cons.mp hm).elim (fun h => hne h) (fun h => hl h)

theorem hourOfHourKey_eval (d1 d2 d3 x y : Str)
    (hx : ':' ∉ x) (hyc : ':' ∉ y) (hyd : '-' ∉ y)
    (h1c : ':' ∉ d1) (h1d : '-' ∉ d1) (h2c : ':' ∉ d2) (h2d : '-' ∉ d2)
    (h3c : ':' ∉ d3) (h3d : '-' ∉ d3) :
    hourOfHourKey ("HOST:".toList ++ x ++ ":HOUR:".toList ++
      (d1 ++ '-' :: d2 ++ '-' :: d3) ++ '-' :: y) = goAtoi y := by
  have hT : ':' ∉ (d1 ++ '-' :: d2 ++ '-' :: d3) ++ '-' :: y :=
    char_not_mem_append
      (char_not_mem_append
        (char_not_mem_append h1c (char_not_mem_cons (by decide) h2c))
        (char_not_mem_cons (by decide) h3c))
      (char_not_mem_cons (by decide) hyc)
  unfold hourOfHourKey
  rw [hourKey_normalize x y (d1 ++ '-' :: d2 ++ '-' :: d3),
    splitSep_colon_hourKey hx hT]
  dsimp only
  rw [show (["HOST".toList, x, "HOUR".toList,
      (d1 ++ '-' :: d2 ++ '-' :: d3) ++ '-' :: y] : List Str).getD 3 [] =
    (d1 ++ '-' :: d2 ++ '-' :: d3) ++ '-' :: y from rfl]
  rw [splitSep_dash_stamp h1d h2d h3d hyd]
  rw [show ([d1, d2, d3, y] : List Str).getD 3 [] = y from rfl]
  simp

theorem hourOfHourKey_some_facts (d1 d2 d3 x y : Str) (hr : Int)
    (h1c : ':' ∉ d1) (h1d : '-' ∉ d1) (h2c : ':' ∉ d2) (h2d : '-' ∉ d2)
    (h3c : ':' ∉ d3) (h3d : '-' ∉ d3)
    (hwf : hourOfHourKey ("HOST:".toList ++ x ++ ":HOUR:".toList ++
      (d1 ++ '-' :: d2 ++ '-' :: d3) ++ '-' :: y) = some hr) :
    ':' ∉ x ∧ ':' ∉ y ∧ '-' ∉ y ∧ goAtoi y = some hr := by
  have hlen : (splitSep ':' ("HOST:".toList ++ x ++ ":HOUR:".toList ++
      (d1 ++ '-' :: d2 ++ '-' :: d3) ++ '-' :: y)).length = 4 := by
    by_contra hne
    unfold hourOfHourKey at hwf
    dsimp only at hwf
    rw [if_neg hne] at hwf
    exact Option.noConfusion hwf
  have hsl := splitSep_length ':' ("HOST:".toList ++ x ++ ":HOUR:".toList ++
    (d1 ++ '-' :: d2 ++ '-' :: d3) ++ '-' :: y)
  rw [hlen] at hsl
  have cH : List.count ':' "HOST:".toList = 1 := by decide
  have cB : List.count ':' ":HOUR:".toList = 2 := by decide
  have c1 : List.count ':' d1 = 0 := List.count_eq_zero.mpr h1c
  have c2 : List.count ':' d2 = 0 := List.count_eq_zero.mpr h2c
  have c3 : List.count ':' d3 = 0 := List.count_eq_zero.mpr h3c
  simp only [List.count_append, List.count_cons, cH, cB, c1, c2, c3,
    show (':' == '-') = false from by decide] at hsl
  simp at hsl
  have hxc : ':' ∉ x := List.count_eq_zero.mp (by omega)
  have hyc : ':' ∉ y := List.count_eq_zero.mp (by omega)
  have hT : ':' ∉ (d1 ++ '-' :: d2 ++ '-' :: d3) ++ '-' :: y :=
    char_not_mem_append
      (char_not_mem_append
        (char_not_mem_append h1c (char_not_mem_cons (by decide) h2c))
        (char_not_mem_cons (by decide) h3c))
      (char_not_mem_cons (by decide) hyc)
  unfold hourOfHourKey at hwf
  rw [hourKey_normalize x y (d1 ++ '-' :: d2 ++ '-' :: d3),
    splitSep_colon_hourKey hxc hT] at hwf
  dsimp only at hwf
  rw [show (["HOST".toList, x, "HOUR".toList,
      (d1 ++ '-' :: d2 ++ '-' :: d3) ++ '-' :: y] : List Str).getD 3 [] =
    (d1 ++ '-' :: d2 ++ '-' :: d3) ++ '-' :: y from rfl] at hwf
  rw [if_pos (show (["HOST".toList, x, "HOUR".toList,
      (d1 ++ '-' :: d2 ++ '-' :: d3) ++ '-' :: y] : List Str).length = 4 by simp)] at hwf
  have hdl : (splitSep '-' ((d1 ++ '-' :: d2 ++ '-' :: d3) ++ '-' :: y)).length = 4 := by
    by_contra hne
    rw [if_neg hne] at hwf
    exact Option.noConfusion hwf
  have hdsl := splitSep_length '-' ((d1 ++ '-' :: d2 ++ '-' :: d3) ++ '-' :: y)
  rw [hdl] at hdsl
  have e1 : List.count '-' d1 = 0 := List.count_eq_zero.mpr h1d
  have e2 : List.count '-' d2 = 0 := List.count_eq_zero.mpr h2d
  have e3 : List.count '-' d3 = 0 := List.count_eq_zero.mpr h3d
  simp only [List.count_append, List.count_cons, e1, e2, e3,
    show ('-' == '-') = true from by decide] at hdsl
  simp at hdsl
  have hyd : '-' ∉ y := List.count_eq_zero.mp (by omega)
  rw [splitSep_dash_stamp h1d h2d h3d hyd] at hwf
  rw [if_pos (show ([d1, d2, d3, y] : List Str).length = 4 by simp)] at hwf
  rw [show ([d1, d2, d3, y] : List Str).getD 3 [] = y from rfl] at hwf
  exact ⟨hxc, hyc, hyd, hwf⟩

/-- C6: `query_by_hour` returns exactly the well-formed HOUR keys of the
queried date whose hour component lies in the inclusive range
`[from_hour, to_hour]` (given a healthy store whose records load); in
particular, with HOUR keys existing only at hours 09 and 17 of
2024-03-22, querying 10..16 returns empty keys and records with no
error. -/
theorem getHourlyStats_exact :
    (∀ (st : RedisState) (d1 d2 d3 : Str) (fromHour toHour : Int)
       (keys : List Str) (recs : List (Str × HostStats)),
      (∀ c ∈ d1, c.isDigit = true) → (∀ c ∈ d2, c.isDigit = true) →
      (∀ c ∈ d3, c.isDigit = true) →
      (∀ k, st.getFails k = false) → (∀ k, st.decodeFails k = false) →
      st.keysFail = false →
      0 ≤ fromHour → fromHour ≤ 23 → 0 ≤ toHour → toHour ≤ 23 →
      GetHourlyStats st (d1 ++ '-' :: d2 ++ '-' :: d3) fromHour toHour =
        some (keys, recs) →
      ∀ k, (k ∈ keys ↔ k ∈ st.data.map Prod.fst ∧
        ∃ hour, hourKeyWellFormed (d1 ++ '-' :: d2 ++ '-' :: d3) hour k ∧
          fromHour ≤ hour ∧ hour ≤ toHour)) ∧
    GetHourlyStats hourScenarioStore "2024-03-22".toList 10 16 = some ([], []) := by
  constructor
  · intro st d1 d2 d3 fromHour toHour keys recs hd1 hd2 hd3 hgf hdf hkf _ _ _ _ heq k
    have h1c : ':' ∉ d1 := not_mem_of_all_digit hd1 (by decide)
    have h1d : '-' ∉ d1 := not_mem_of_all_digit hd1 (by decide)
    have h2c : ':' ∉ d2 := not_mem_of_all_digit hd2 (by decide)
    have h2d : '-' ∉ d2 := not_mem_of_all_digit hd2 (by decide)
    have h3c : ':' ∉ d3 := not_mem_of_all_digit hd3 (by decide)
    have h3d : '-' ∉ d3 := not_mem_of_all_digit hd3 (by decide)
    have hstar : '*' ∉ (d1 ++ '-' :: d2 ++ '-' :: d3) :=
      char_not_mem_append
        (char_not_mem_append (not_mem_of_all_digit hd1 (by decide))
          (char_not_mem_cons (by decide) (not_mem_of_all_digit hd2 (by decide))))
        (char_not_mem_cons (by decide) (not_mem_of_all_digit hd3 (by decide)))
    unfold GetHourlyStats at heq
    rw [hkf] at heq
    rw [if_neg (by simp)] at heq
    dsimp only at heq
    simp only [Option.some.injEq, Prod.mk.injEq] at heq
    obtain ⟨hkeys, -⟩ := heq
    rw [← hkeys]
    constructor
    · intro hk
      obtain ⟨hkglob, hkeep⟩ := List.mem_filter.mp hk
      obtain ⟨hmem, hglob⟩ := List.mem_filter.mp hkglob
      refine ⟨hmem, ?_⟩
      obtain ⟨x, y, rfl⟩ := (globMatch_hourPattern _ hstar k).mp hglob
      unfold hourKeyKeep at hkeep
      cases hh : hourOfHourKey ("HOST:".toList ++ x ++ ":HOUR:".toList ++
          (d1 ++ '-' :: d2 ++ '-' :: d3) ++ '-' :: y) with
      | none => rw [hh] at hkeep; exact absurd hkeep (by simp)
      | some h =>
        rw [hh] at hkeep
        simp only [Bool.and_eq_true, decide_eq_true_eq] at hkeep
        obtain ⟨⟨hfrom, hto⟩, -⟩ := hkeep
        obtain ⟨hxc, hyc, hyd, hatoi⟩ :=
          hourOfHourKey_some_facts d1 d2 d3 x y h h1c h1d h2c h2d h3c h3d hh
        exact ⟨h, ⟨x, y, hxc, hyc, hyd, rfl, hatoi⟩, hfrom, hto⟩
    · rintro ⟨hmem, hour, ⟨x, y, hxc, hyc, hyd, rfl, hatoi⟩, hfrom, hto⟩
      apply List.mem_filter.mpr
      refine ⟨List.mem_filter.mpr ⟨hmem, ?_⟩, ?_⟩
      · exact (globMatch_hourPattern _ hstar _).mpr ⟨x, y, rfl⟩
      · unfold hourKeyKeep
        rw [hourOfHourKey_eval d1 d2 d3 x y hxc hyc hyd h1c h1d h2c h2d h3c h3d,
          hatoi]
        obtain ⟨r, hr⟩ := st_get_found_of_mem st _ (hgf _) (hdf _) hmem
        rw [hr]
        simp [hfrom, hto]
  · decide

/-- C6 witness: the characterisation applied to the scenario store with
the range 9..17, at the key of hour 09. -/
theorem getHourlyStats_exact_witness :
    k09 ∈ [k09, k17] ↔
      k09 ∈ hourScenarioStore.data.map Prod.fst ∧
        ∃ hour, hourKeyWellFormed
            ("2024".toList ++ '-' :: "03".toList ++ '-' :: "22".toList) hour k09 ∧
          9 ≤ hour ∧ hour ≤ 17 :=
  getHourlyStats_exact.1 hourScenarioStore "2024".toList "03".toList "22".toList
    9 17 [k09, k17] [(k09, sampleRec), (k17, sampleRec)]
    (by decide) (by decide) (by decide)
    (fun _ => rfl) (fun _ => rfl) rfl
    (by decide) (by decide) (by decide) (by decide)
    (by decide) k09

end GoProxy
